import Mathlib

/-!
Shallow embedding of the dual-quaternion core of the macaw library
(`src/dual_quat.rs`), over an exact linear ordered field `K` standing in
for `f32`: the field operations model the floating-point operations
exactly, so every tolerance claim is settled by proving the underlying
exact identity. The external math library types (`Quat`, `Vec3`) are
modelled with their conventional semantics as the spec directs
(scalar-last Hamilton quaternions, componentwise vectors). Operations
that call `f32::sqrt` are embedded at `K = ℝ` using `Real.sqrt`; all
other operations stay generic and are evaluated at `K = ℚ` in witnesses.
-/

namespace Macaw

/-- Modelled from the spec: 3-component vector `Vec3` of the external math
library, componentwise arithmetic. -/
structure Vec3 (K : Type) where
  x : K
  y : K
  z : K

/-- Modelled from the spec: quaternion `Quat` of the external math library,
stored as x, y, z with scalar part w last, with the conventional operations. -/
structure Quat (K : Type) where
  x : K
  y : K
  z : K
  w : K

namespace Quat

variable {K : Type} [LinearOrderedField K]

/-- Modelled from the spec: Hamilton product of two quaternions (scalar-last
storage), the conventional quaternion multiplication of the math library. -/
def mul (p q : Quat K) : Quat K :=
  ⟨p.w * q.x + p.x * q.w + p.y * q.z - p.z * q.y,
   p.w * q.y - p.x * q.z + p.y * q.w + p.z * q.x,
   p.w * q.z + p.x * q.y - p.y * q.x + p.z * q.w,
   p.w * q.w - p.x * q.x - p.y * q.y - p.z * q.z⟩

/-- Modelled from the spec: quaternion conjugate, negating the vector part. -/
def conjugate (q : Quat K) : Quat K :=
  ⟨-q.x, -q.y, -q.z, q.w⟩

/-- Modelled from the spec: componentwise quaternion addition. -/
def add (p q : Quat K) : Quat K :=
  ⟨p.x + q.x, p.y + q.y, p.z + q.z, p.w + q.w⟩

/-- Modelled from the spec: quaternion scaled by a scalar, componentwise. -/
def smul (q : Quat K) (k : K) : Quat K :=
  ⟨q.x * k, q.y * k, q.z * k, q.w * k⟩

/-- Modelled from the spec: 4D dot product of two quaternions viewed as
4-vectors. -/
def dot4 (p q : Quat K) : K :=
  p.x * q.x + p.y * q.y + p.z * q.z + p.w * q.w

/-- Modelled from the spec: squared 4-vector length of a quaternion. -/
def length_squared (q : Quat K) : K :=
  dot4 q q

/-- Modelled from the spec: the identity quaternion (0, 0, 0, 1). -/
def IDENTITY : Quat K :=
  ⟨0, 0, 0, 1⟩

/-- Modelled from the spec: componentwise approximate equality of two
quaternions with absolute tolerance eps. -/
def abs_diff_eq (p q : Quat K) (eps : K) : Prop :=
  |p.x - q.x| ≤ eps ∧ |p.y - q.y| ≤ eps ∧ |p.z - q.z| ≤ eps ∧ |p.w - q.w| ≤ eps

end Quat

/-- Modelled from the spec: componentwise approximate equality of vectors. -/
def Vec3.abs_diff_eq {K : Type} [LinearOrderedField K] (a b : Vec3 K) (eps : K) : Prop :=
  |a.x - b.x| ≤ eps ∧ |a.y - b.y| ≤ eps ∧ |a.z - b.z| ≤ eps

/-- DualScalar from `src/dual_quat.rs`: a dual number with real and dual part. -/
structure DualScalar (K : Type) where
  real : K
  dual : K

namespace DualScalar

variable {K : Type} [LinearOrderedField K]

/-- Mul for DualScalar from `src/dual_quat.rs` (lines 74-83). -/
def mul (a b : DualScalar K) : DualScalar K :=
  ⟨a.real * b.real, a.real * b.dual + a.dual * b.real⟩

/-- DualScalar::inverse from `src/dual_quat.rs` (lines 65-71):
real_inv = 1/real, dual = -dual * real_inv * real_inv. -/
def inverse (a : DualScalar K) : DualScalar K :=
  ⟨1 / a.real, -a.dual * (1 / a.real) * (1 / a.real)⟩

/-- DualScalar::sqrt from `src/dual_quat.rs` (lines 39-48), embedded at the
reals: real_sqrt = real.sqrt(); dual = self.dual / 2.0 * real_sqrt
(note: the source divides dual by 2.0 and then multiplies by real_sqrt). -/
noncomputable def sqrt (a : DualScalar ℝ) : DualScalar ℝ :=
  ⟨Real.sqrt a.real, a.dual / 2 * Real.sqrt a.real⟩

/-- DualScalar::inverse_sqrt from `src/dual_quat.rs` (lines 53-60):
real = 1/real_sqrt, dual = -dual / (2 * real * real_sqrt). -/
noncomputable def inverse_sqrt (a : DualScalar ℝ) : DualScalar ℝ :=
  ⟨1 / Real.sqrt a.real, -a.dual / (2 * a.real * Real.sqrt a.real)⟩

end DualScalar

/-- DualQuat from `src/dual_quat.rs`: real (rotator) and dual (translator)
quaternion parts. -/
structure DualQuat (K : Type) where
  real : Quat K
  dual : Quat K

namespace DualQuat

variable {K : Type} [LinearOrderedField K]

/-- DualQuat::IDENTITY from `src/dual_quat.rs` (lines 145-148). -/
def IDENTITY : DualQuat K :=
  ⟨Quat.IDENTITY, ⟨0, 0, 0, 0⟩⟩

/-- Mul for DualQuat from `src/dual_quat.rs` (lines 339-350):
real = q0 * q2, dual = q0 * q3 + q1 * q2. -/
def mul (a b : DualQuat K) : DualQuat K :=
  ⟨a.real.mul b.real, (a.real.mul b.dual).add (a.dual.mul b.real)⟩

/-- Mul of a DualQuat by a DualScalar from `src/dual_quat.rs` (lines 413-423):
real = rhs.real * self.real, dual = rhs.dual * self.real + rhs.real * self.dual. -/
def scalar_mul (s : DualScalar K) (rhs : DualQuat K) : DualQuat K :=
  ⟨rhs.real.smul s.real, (rhs.dual.smul s.real).add (rhs.real.smul s.dual)⟩

/-- The pure quaternion built from half a translation vector,
`Quat::from_vec4((translation * 0.5).extend(0.0))` in the source. -/
def half_translation_quat (t : Vec3 K) : Quat K :=
  ⟨t.x * (1 / 2), t.y * (1 / 2), t.z * (1 / 2), 0⟩

/-- DualQuat::from_rotation_translation from `src/dual_quat.rs` (lines 166-171):
real = rotation, dual = quat(translation * 0.5, 0) * rotation. -/
def from_rotation_translation (rotation : Quat K) (translation : Vec3 K) : DualQuat K :=
  ⟨rotation, (half_translation_quat translation).mul rotation⟩

/-- DualQuat::from_translation from `src/dual_quat.rs` (lines 175-180). -/
def from_translation (translation : Vec3 K) : DualQuat K :=
  ⟨Quat.IDENTITY, half_translation_quat translation⟩

/-- DualQuat::to_rotation_translation from `src/dual_quat.rs` (lines 197-200):
translation = 2 * vec4(dual * real.conjugate()).xyz, rotation = real. -/
def to_rotation_translation (q : DualQuat K) : Quat K × Vec3 K :=
  (q.real,
   ⟨2 * (q.dual.mul q.real.conjugate).x,
    2 * (q.dual.mul q.real.conjugate).y,
    2 * (q.dual.mul q.real.conjugate).z⟩)

/-- DualQuat::conjugate from `src/dual_quat.rs` (lines 206-211). -/
def conjugate (q : DualQuat K) : DualQuat K :=
  ⟨q.real.conjugate, q.dual.conjugate⟩

/-- DualQuat::inverse from `src/dual_quat.rs` (lines 218-221): the conjugate
(the debug normalization assertion does not affect the returned value). -/
def inverse (q : DualQuat K) : DualQuat K :=
  q.conjugate

/-- DualQuat::norm_squared from `src/dual_quat.rs` (lines 227-238):
real = real.length_squared(), dual = 2 * dot(real, dual). -/
def norm_squared (q : DualQuat K) : DualScalar K :=
  ⟨q.real.length_squared, 2 * Quat.dot4 q.real q.dual⟩

/-- DualQuat::is_normalized from `src/dual_quat.rs` (lines 260-265):
norm squared within eps = 1e-4 of (1, 0). -/
def is_normalized (q : DualQuat K) : Prop :=
  |q.norm_squared.real - 1| < 1 / 10000 ∧ |q.norm_squared.dual| < 1 / 10000

/-- DualQuat::abs_diff_eq from `src/dual_quat.rs` (lines 318-321). -/
def abs_diff_eq (a b : DualQuat K) (eps : K) : Prop :=
  a.real.abs_diff_eq b.real eps ∧ a.dual.abs_diff_eq b.dual eps

/-- DualQuat::right_mul_translation from `src/dual_quat.rs` (lines 326-336):
closed-form update of the dual part only. -/
def right_mul_translation (q : DualQuat K) (trans : Vec3 K) : DualQuat K :=
  ⟨q.real,
   ⟨q.dual.x + (1 / 2) * (q.real.w * trans.x + q.real.y * trans.z - q.real.z * trans.y),
    q.dual.y + (1 / 2) * (q.real.w * trans.y + q.real.z * trans.x - q.real.x * trans.z),
    q.dual.z + (1 / 2) * (q.real.w * trans.z + q.real.x * trans.y - q.real.y * trans.x),
    q.dual.w - (1 / 2) * (q.real.x * trans.x + q.real.y * trans.y + q.real.z * trans.z)⟩⟩

/-- DualQuat::normalize_full from `src/dual_quat.rs` (lines 273-295):
normalizer = (1/|real|, -(real . dual)/(|real| * |real|^2)), result =
normalizer * self. -/
noncomputable def normalize_full (q : DualQuat ℝ) : DualQuat ℝ :=
  scalar_mul
    ⟨1 / Real.sqrt q.real.length_squared,
     -(Quat.dot4 q.real q.dual) /
       (Real.sqrt q.real.length_squared * q.real.length_squared)⟩
    q

/-- DualQuat::normalize_to_rotation_translation from `src/dual_quat.rs`
(lines 308-314): scale both parts by real.length_recip(), then decompose. -/
noncomputable def normalize_to_rotation_translation (q : DualQuat ℝ) : Quat ℝ × Vec3 ℝ :=
  to_rotation_translation
    ⟨q.real.smul (1 / Real.sqrt q.real.length_squared),
     q.dual.smul (1 / Real.sqrt q.real.length_squared)⟩

end DualQuat

/-! Helper lemmas shared by the claim proofs. -/

/-- Absolute difference of equal values is below any non-negative tolerance. -/
lemma abs_sub_le_of_eq {K : Type} [LinearOrderedField K] {a b e : K}
    (h : a = b) (he : 0 ≤ e) : |a - b| ≤ e := by
  subst h
  simpa using he

/-- Componentwise tolerance holds for equal quaternions. -/
lemma quat_abs_diff_eq_of_eq {K : Type} [LinearOrderedField K] {p q : Quat K} {e : K}
    (h : p = q) (he : 0 ≤ e) : p.abs_diff_eq q e :=
  ⟨abs_sub_le_of_eq (by rw [h]) he, abs_sub_le_of_eq (by rw [h]) he,
   abs_sub_le_of_eq (by rw [h]) he, abs_sub_le_of_eq (by rw [h]) he⟩

/-- Componentwise tolerance holds for equal vectors. -/
lemma vec3_abs_diff_eq_of_eq {K : Type} [LinearOrderedField K] {a b : Vec3 K} {e : K}
    (h : a = b) (he : 0 ≤ e) : a.abs_diff_eq b e :=
  ⟨abs_sub_le_of_eq (by rw [h]) he, abs_sub_le_of_eq (by rw [h]) he,
   abs_sub_le_of_eq (by rw [h]) he⟩

/-- Componentwise tolerance holds for equal dual quaternions. -/
lemma Dualquat_abs_diff_eq_of_eq {K : Type} [LinearOrderedField K] {a b : DualQuat K} {e : K}
    (h : a = b) (he : 0 ≤ e) : a.abs_diff_eq b e :=
  ⟨quat_abs_diff_eq_of_eq (by rw [h]) he, quat_abs_diff_eq_of_eq (by rw [h]) he⟩

/-! Claim theorems. -/

/-- Claim C9: conjugate is an involution, exactly and componentwise. -/
theorem conjugate_involution {K : Type} [LinearOrderedField K] (q : DualQuat K) :
    q.conjugate.conjugate = q := by
  cases q with
  | mk r d =>
    cases r
    cases d
    simp [DualQuat.conjugate, Quat.conjugate]

/-- Claim C10: DualQuat::IDENTITY is a two-sided multiplicative identity for
the dual quaternion product, exactly and componentwise. -/
theorem identity_two_sided {K : Type} [LinearOrderedField K] (q : DualQuat K) :
    DualQuat.IDENTITY.mul q = q ∧ q.mul DualQuat.IDENTITY = q := by
  cases q with
  | mk r d =>
    cases r
    cases d
    constructor <;>
      simp [DualQuat.mul, DualQuat.IDENTITY, Quat.IDENTITY, Quat.mul, Quat.add,
        Quat.mk.injEq]

/-- Claim C8: norm_squared returns the squared 4-vector length of the real
part and twice the 4D dot product of the real and dual parts. -/
theorem norm_squared_spec {K : Type} [LinearOrderedField K] (q : DualQuat K) :
    q.norm_squared =
      ⟨q.real.x * q.real.x + q.real.y * q.real.y + q.real.z * q.real.z +
         q.real.w * q.real.w,
       2 * (q.real.x * q.dual.x + q.real.y * q.dual.y + q.real.z * q.dual.z +
         q.real.w * q.dual.w)⟩ :=
  rfl

/-- Claim C7: for a dual scalar with non-zero real part, a * a.inverse()
equals (1, 0) within 1e-6 on both components. -/
theorem dual_scalar_inverse_law {K : Type} [LinearOrderedField K]
    (a : DualScalar K) (h : a.real ≠ 0) :
    |(a.mul a.inverse).real - 1| ≤ 1 / 1000000 ∧
      |(a.mul a.inverse).dual - 0| ≤ 1 / 1000000 := by
  constructor
  · refine abs_sub_le_of_eq ?_ (by norm_num)
    simp only [DualScalar.mul, DualScalar.inverse]
    field_simp
  · refine abs_sub_le_of_eq ?_ (by norm_num)
    simp only [DualScalar.mul, DualScalar.inverse]
    field_simp
    ring

/-- Claim C2: for a unit dual quaternion q and any translation t, the
optimized right_mul_translation agrees with the general composition
q * from_translation(t) within 1e-6 componentwise on both parts. -/
theorem right_mul_translation_equiv {K : Type} [LinearOrderedField K]
    (q : DualQuat K) (t : Vec3 K) (h : q.is_normalized) :
    (q.right_mul_translation t).abs_diff_eq
      (q.mul (DualQuat.from_translation t)) (1 / 1000000) := by
  refine Dualquat_abs_diff_eq_of_eq ?_ (by norm_num)
  cases q with
  | mk r d =>
    cases r
    cases d
    cases t
    simp only [DualQuat.right_mul_translation, DualQuat.mul, DualQuat.from_translation,
      DualQuat.half_translation_quat, Quat.mul, Quat.add, Quat.IDENTITY,
      DualQuat.mk.injEq, Quat.mk.injEq]
    refine ⟨⟨by ring, by ring, by ring, by ring⟩, by ring, by ring, by ring, by ring⟩

/-- Witness for C2 at the unit dual quaternion built from the unit rotation
(3/5, 0, 0, 4/5) and translation (1, 2, 3), applied to translation (4, 5, 6). -/
theorem right_mul_translation_equiv_witness :
    (DualQuat.from_rotation_translation (⟨3/5, 0, 0, 4/5⟩ : Quat ℚ)
        ⟨1, 2, 3⟩).is_normalized ∧
      ((DualQuat.from_rotation_translation (⟨3/5, 0, 0, 4/5⟩ : Quat ℚ)
          ⟨1, 2, 3⟩).right_mul_translation ⟨4, 5, 6⟩).abs_diff_eq
        ((DualQuat.from_rotation_translation (⟨3/5, 0, 0, 4/5⟩ : Quat ℚ)
          ⟨1, 2, 3⟩).mul (DualQuat.from_translation ⟨4, 5, 6⟩)) (1 / 1000000) :=
  ⟨by
    norm_num [DualQuat.is_normalized, DualQuat.norm_squared,
      DualQuat.from_rotation_translation, DualQuat.half_translation_quat,
      Quat.length_squared, Quat.dot4, Quat.mul],
   right_mul_translation_equiv _ _ (by
    norm_num [DualQuat.is_normalized, DualQuat.norm_squared,
      DualQuat.from_rotation_translation, DualQuat.half_translation_quat,
      Quat.length_squared, Quat.dot4, Quat.mul])⟩

/-- Claim C4: for a unit rotation r and any translation t, decomposing
from_rotation_translation(r, t) returns (r, t) within 1e-5 per component. -/
theorem round_trip {K : Type} [LinearOrderedField K] (r : Quat K) (t : Vec3 K)
    (h : r.length_squared = 1) :
    ((DualQuat.from_rotation_translation r t).to_rotation_translation).1.abs_diff_eq
        r (1 / 100000) ∧
      ((DualQuat.from_rotation_translation r t).to_rotation_translation).2.abs_diff_eq
        t (1 / 100000) := by
  constructor
  · exact quat_abs_diff_eq_of_eq rfl (by norm_num)
  · refine vec3_abs_diff_eq_of_eq ?_ (by norm_num)
    simp only [Quat.length_squared, Quat.dot4] at h
    cases r with
    | mk rx ry rz rw =>
      cases t with
      | mk tx ty tz =>
        simp only [DualQuat.from_rotation_translation, DualQuat.to_rotation_translation,
          DualQuat.half_translation_quat, Quat.mul, Quat.conjugate, Vec3.mk.injEq]
        refine ⟨by linear_combination tx * h, by linear_combination ty * h,
          by linear_combination tz * h⟩

/-- Witness for C4 at the unit rotation (3/5, 0, 0, 4/5) and translation
(1, 2, 3). -/
theorem round_trip_witness :
    (⟨3/5, 0, 0, 4/5⟩ : Quat ℚ).length_squared = 1 ∧
      (((DualQuat.from_rotation_translation (⟨3/5, 0, 0, 4/5⟩ : Quat ℚ)
          ⟨1, 2, 3⟩).to_rotation_translation).1.abs_diff_eq ⟨3/5, 0, 0, 4/5⟩ (1 / 100000) ∧
        ((DualQuat.from_rotation_translation (⟨3/5, 0, 0, 4/5⟩ : Quat ℚ)
          ⟨1, 2, 3⟩).to_rotation_translation).2.abs_diff_eq ⟨1, 2, 3⟩ (1 / 100000)) :=
  ⟨by norm_num [Quat.length_squared, Quat.dot4],
   round_trip _ _ (by norm_num [Quat.length_squared, Quat.dot4])⟩

/-- Claim C5: for q built from a unit rotation and any translation,
q * q.inverse() equals IDENTITY within 1e-6 on both quaternion parts. -/
theorem inverse_law {K : Type} [LinearOrderedField K] (r : Quat K) (t : Vec3 K)
    (h : r.length_squared = 1) :
    ((DualQuat.from_rotation_translation r t).mul
        (DualQuat.from_rotation_translation r t).inverse).abs_diff_eq
      DualQuat.IDENTITY (1 / 1000000) := by
  refine Dualquat_abs_diff_eq_of_eq ?_ (by norm_num)
  simp only [Quat.length_squared, Quat.dot4] at h
  cases r with
  | mk rx ry rz rw =>
    cases t with
    | mk tx ty tz =>
      simp only [DualQuat.from_rotation_translation, DualQuat.inverse,
        DualQuat.conjugate, DualQuat.mul, DualQuat.half_translation_quat, Quat.mul,
        Quat.conjugate, Quat.add, DualQuat.IDENTITY, Quat.IDENTITY,
        DualQuat.mk.injEq, Quat.mk.injEq]
      refine ⟨⟨by ring, by ring, by ring, by linear_combination h⟩,
        by ring, by ring, by ring, by ring⟩

/-- Witness for C5 at the unit rotation (3/5, 0, 0, 4/5) and translation
(1, 2, 3). -/
theorem inverse_law_witness :
    (⟨3/5, 0, 0, 4/5⟩ : Quat ℚ).length_squared = 1 ∧
      ((DualQuat.from_rotation_translation (⟨3/5, 0, 0, 4/5⟩ : Quat ℚ)
          ⟨1, 2, 3⟩).mul
        (DualQuat.from_rotation_translation (⟨3/5, 0, 0, 4/5⟩ : Quat ℚ)
          ⟨1, 2, 3⟩).inverse).abs_diff_eq DualQuat.IDENTITY (1 / 1000000) :=
  ⟨by norm_num [Quat.length_squared, Quat.dot4],
   inverse_law _ _ (by norm_num [Quat.length_squared, Quat.dot4])⟩

/-- Witness for C7 at the concrete dual scalar (2, 3). -/
theorem dual_scalar_inverse_law_witness :
    ((⟨2, 3⟩ : DualScalar ℚ).real ≠ 0) ∧
      (|(DualScalar.mul ⟨2, 3⟩ (DualScalar.inverse ⟨2, 3⟩)).real - 1| ≤ (1 : ℚ) / 1000000 ∧
        |(DualScalar.mul ⟨2, 3⟩ (DualScalar.inverse ⟨2, 3⟩)).dual - 0| ≤ (1 : ℚ) / 1000000) :=
  ⟨by norm_num, dual_scalar_inverse_law ⟨2, 3⟩ (by norm_num)⟩

/-! Facts about the square-root-based operations, over the reals. -/

/-- Square root of 4 evaluates to 2. -/
lemma sqrt_four : Real.sqrt 4 = 2 := by
  rw [show (4 : ℝ) = 2 ^ 2 by norm_num, Real.sqrt_sq (by norm_num : (0 : ℝ) ≤ 2)]

/-- Claim C1, refuted at the concrete input (4, 1): the source computes the
dual part as dual / 2 * sqrt(real), which yields 1 here, while the claimed
formula dual / (2 * sqrt(real)) yields 1/4. -/
theorem dual_scalar_sqrt_deviates :
    DualScalar.sqrt ⟨4, 1⟩ = ⟨2, 1⟩ ∧
      (1 : ℝ) / (2 * Real.sqrt 4) = 1 / 4 ∧ ((1 : ℝ) ≠ 1 / 4) := by
  refine ⟨?_, by rw [sqrt_four]; norm_num, by norm_num⟩
  simp only [DualScalar.sqrt, sqrt_four]
  norm_num

/-- The source documents inverse_sqrt as computing sqrt followed by inverse;
with the source sqrt this fails already at (4, 1), while the specified
sqrt formula satisfies it, corroborating that the sqrt dual part is a slip. -/
theorem inverse_sqrt_sqrt_inverse_mismatch :
    (DualScalar.sqrt ⟨4, 1⟩).inverse ≠ DualScalar.inverse_sqrt ⟨4, 1⟩ ∧
      DualScalar.inverse ⟨Real.sqrt 4, 1 / (2 * Real.sqrt 4)⟩ =
        DualScalar.inverse_sqrt ⟨4, 1⟩ := by
  constructor
  · simp only [DualScalar.sqrt, DualScalar.inverse, DualScalar.inverse_sqrt, sqrt_four]
    norm_num [DualScalar.mk.injEq]
  · simp only [DualScalar.inverse, DualScalar.inverse_sqrt, sqrt_four]
    norm_num

/-- Non-zero quaternions have positive squared length over the reals. -/
lemma quat_length_squared_pos {r : Quat ℝ} (h : r ≠ ⟨0, 0, 0, 0⟩) :
    0 < r.length_squared := by
  cases r with
  | mk x y z w =>
    by_contra hc
    push_neg at hc
    simp only [Quat.length_squared, Quat.dot4] at hc
    have hx : x = 0 := mul_self_eq_zero.mp (le_antisymm
      (by nlinarith [mul_self_nonneg y, mul_self_nonneg z, mul_self_nonneg w])
      (mul_self_nonneg x))
    have hy : y = 0 := mul_self_eq_zero.mp (le_antisymm
      (by nlinarith [mul_self_nonneg x, mul_self_nonneg z, mul_self_nonneg w])
      (mul_self_nonneg y))
    have hz : z = 0 := mul_self_eq_zero.mp (le_antisymm
      (by nlinarith [mul_self_nonneg x, mul_self_nonneg y, mul_self_nonneg w])
      (mul_self_nonneg z))
    have hw : w = 0 := mul_self_eq_zero.mp (le_antisymm
      (by nlinarith [mul_self_nonneg x, mul_self_nonneg y, mul_self_nonneg z])
      (mul_self_nonneg w))
    exact h (by simp [hx, hy, hz, hw])

/-- Applying the fused normalizer with any n satisfying n * n = |real|^2,
n ≠ 0, produces a dual quaternion of norm squared exactly (1, 0). -/
lemma scalar_mul_normalizer_norm_squared {K : Type} [LinearOrderedField K]
    (q : DualQuat K) (n : K) (hn2 : n * n = q.real.length_squared) (hn0 : n ≠ 0) :
    (DualQuat.scalar_mul
        ⟨1 / n, -(Quat.dot4 q.real q.dual) / (n * q.real.length_squared)⟩
        q).norm_squared = ⟨1, 0⟩ := by
  have hL0 : q.real.length_squared ≠ 0 := by
    rw [← hn2]
    exact mul_ne_zero hn0 hn0
  cases q with
  | mk r d =>
    cases r with
    | mk x y z w =>
      cases d with
      | mk a b c e =>
        simp only [Quat.length_squared, Quat.dot4] at hn2 hL0 ⊢
        simp only [DualQuat.scalar_mul, DualQuat.norm_squared, Quat.smul, Quat.add,
          Quat.length_squared, Quat.dot4, DualScalar.mk.injEq]
        constructor
        · field_simp
          linear_combination -hn2
        · field_simp
          ring_nf

/-- The norm squared of normalize_full is exactly (1, 0) for non-degenerate
input. -/
lemma norm_squared_normalize_full (q : DualQuat ℝ) (h : 0 < q.real.length_squared) :
    q.normalize_full.norm_squared = ⟨1, 0⟩ :=
  scalar_mul_normalizer_norm_squared q (Real.sqrt q.real.length_squared)
    (Real.mul_self_sqrt h.le) (ne_of_gt (Real.sqrt_pos.mpr h))

/-- normalize_full applied twice equals normalize_full, exactly. -/
lemma normalize_full_twice (q : DualQuat ℝ) (h : 0 < q.real.length_squared) :
    q.normalize_full.normalize_full = q.normalize_full := by
  have hns := norm_squared_normalize_full q h
  have h1 : q.normalize_full.real.length_squared = 1 := congrArg DualScalar.real hns
  have h2 : 2 * Quat.dot4 q.normalize_full.real q.normalize_full.dual = 0 :=
    congrArg DualScalar.dual hns
  have hd : Quat.dot4 q.normalize_full.real q.normalize_full.dual = 0 := by linarith
  show DualQuat.scalar_mul
      ⟨1 / Real.sqrt q.normalize_full.real.length_squared,
       -(Quat.dot4 q.normalize_full.real q.normalize_full.dual) /
         (Real.sqrt q.normalize_full.real.length_squared *
           q.normalize_full.real.length_squared)⟩
      q.normalize_full = q.normalize_full
  rw [h1, hd]
  simp [DualQuat.scalar_mul, Quat.smul, Quat.add]

/-- Claim C6: for q with non-zero real part, normalize_full is idempotent
within 1e-6 and its result satisfies is_normalized. -/
theorem normalize_full_idempotent_and_normalized (q : DualQuat ℝ)
    (h : q.real ≠ ⟨0, 0, 0, 0⟩) :
    (q.normalize_full.normalize_full).abs_diff_eq q.normalize_full (1 / 1000000) ∧
      q.normalize_full.is_normalized := by
  have hL := quat_length_squared_pos h
  refine ⟨Dualquat_abs_diff_eq_of_eq (normalize_full_twice q hL) (by norm_num), ?_⟩
  have hns := norm_squared_normalize_full q hL
  simp only [DualQuat.is_normalized, hns]
  norm_num

/-- Witness for C6 at the dual quaternion with real part (0, 0, 0, 1) and
dual part (1, 2, 3, 0). -/
theorem normalize_full_idempotent_witness :
    ((⟨⟨0, 0, 0, 1⟩, ⟨1, 2, 3, 0⟩⟩ : DualQuat ℝ).real ≠ ⟨0, 0, 0, 0⟩) ∧
      (((⟨⟨0, 0, 0, 1⟩, ⟨1, 2, 3, 0⟩⟩ :
          DualQuat ℝ).normalize_full.normalize_full).abs_diff_eq
        (⟨⟨0, 0, 0, 1⟩, ⟨1, 2, 3, 0⟩⟩ : DualQuat ℝ).normalize_full (1 / 1000000) ∧
        (⟨⟨0, 0, 0, 1⟩, ⟨1, 2, 3, 0⟩⟩ : DualQuat ℝ).normalize_full.is_normalized) :=
  ⟨by norm_num [Quat.mk.injEq],
   normalize_full_idempotent_and_normalized _ (by norm_num [Quat.mk.injEq])⟩

/-- Claim C3: for q with non-zero real part, the fused
normalize_to_rotation_translation agrees with normalize_full followed by
to_rotation_translation, within 1e-5 per component. -/
theorem normalize_fast_path_equiv (q : DualQuat ℝ) (h : q.real ≠ ⟨0, 0, 0, 0⟩) :
    (q.normalize_to_rotation_translation).1.abs_diff_eq
        (q.normalize_full.to_rotation_translation).1 (1 / 100000) ∧
      (q.normalize_to_rotation_translation).2.abs_diff_eq
        (q.normalize_full.to_rotation_translation).2 (1 / 100000) := by
  constructor
  · exact quat_abs_diff_eq_of_eq rfl (by norm_num)
  · refine vec3_abs_diff_eq_of_eq ?_ (by norm_num)
    cases q with
    | mk r d =>
      cases r with
      | mk x y z w =>
        cases d with
        | mk a b c e =>
          simp only [DualQuat.normalize_to_rotation_translation, DualQuat.normalize_full,
            DualQuat.scalar_mul, DualQuat.to_rotation_translation, Quat.smul, Quat.add,
            Quat.mul, Quat.conjugate, Quat.length_squared, Quat.dot4, Vec3.mk.injEq]
          refine ⟨by ring, by ring, by ring⟩

/-- Witness for C3 at the dual quaternion with real part (0, 0, 0, 1) and
dual part (1, 2, 3, 0). -/
theorem normalize_fast_path_equiv_witness :
    ((⟨⟨0, 0, 0, 1⟩, ⟨1, 2, 3, 0⟩⟩ : DualQuat ℝ).real ≠ ⟨0, 0, 0, 0⟩) ∧
      (((⟨⟨0, 0, 0, 1⟩, ⟨1, 2, 3, 0⟩⟩ :
            DualQuat ℝ).normalize_to_rotation_translation).1.abs_diff_eq
          ((⟨⟨0, 0, 0, 1⟩, ⟨1, 2, 3, 0⟩⟩ :
            DualQuat ℝ).normalize_full.to_rotation_translation).1 (1 / 100000) ∧
        ((⟨⟨0, 0, 0, 1⟩, ⟨1, 2, 3, 0⟩⟩ :
            DualQuat ℝ).normalize_to_rotation_translation).2.abs_diff_eq
          ((⟨⟨0, 0, 0, 1⟩, ⟨1, 2, 3, 0⟩⟩ :
            DualQuat ℝ).normalize_full.to_rotation_translation).2 (1 / 100000)) :=
  ⟨by norm_num [Quat.mk.injEq],
   normalize_fast_path_equiv _ (by norm_num [Quat.mk.injEq])⟩

end Macaw
